import Mathlib

/-!
Verification development for the Binance WebSocket manager module
(`WebSocketManager` together with its `streamNames` codec).

The TypeScript module keeps, per market, an internal connection record
holding a socket handle, a connection state, a set of live stream tokens,
a map from token to the set of registered message handlers, and a
reconnect-attempt counter.  We embed that record and the operations
`subscribe`, `unsubscribe`, `connect`, `disconnect` handlers
(`ws.onopen` / `ws.onclose`), `sendSubscribe`, `sendUnsubscribe`,
`handleDisconnect` and `handleMessage` as pure state-passing functions.

Modelling conventions:
* JS `Map` / `Set` (which iterate in insertion order and hold unique
  entries) become association lists / lists, inserted at the end and
  kept duplicate-free by the operations themselves, exactly as the code
  maintains them.
* Message handlers (JS closures) are identified by natural numbers; a
  handler's observable behaviour during dispatch (whether it throws on a
  given payload) is supplied as a boolean-valued environment `thr`.
* Timers (`setTimeout` / `setInterval`) are modelled by making the
  scheduled action an explicit event: `handleDisconnect` returns the
  scheduled reconnect delay, and the firing of the reconnect timeout is
  the explicit step `reconnectFire`.  The heartbeat interval and the
  2-second delayed close in `unsubscribe` touch no registry state and
  are not needed by any claim.
* `Date.now()` is passed in as a parameter `now`.
* `String.prototype.toLowerCase`/`includes` are modelled character-wise
  (ASCII case mapping, as `Char.toLower`), which coincides with JS on
  the ASCII stream tokens the module manipulates.
-/

namespace WsSpec

/-- Model of JS `String.prototype.toLowerCase` (ASCII case mapping). -/
def jsToLower (s : String) : String := ⟨s.data.map Char.toLower⟩

/-- A string is lowercase when `toLowerCase` leaves it unchanged. -/
def isLowerStr (s : String) : Bool := jsToLower s == s

/-- Does the second list occur at the start of the first? -/
def startsWithL : List Char → List Char → Bool
  | _, [] => true
  | [], _ :: _ => false
  | a :: as, b :: bs => a == b && startsWithL as bs

/-- Does `pat` occur as a contiguous run inside `hay`? -/
def containsSub : List Char → List Char → Bool
  | hay, pat =>
    startsWithL hay pat ||
      match hay with
      | [] => false
      | _ :: t => containsSub t pat

/-- Model of JS `String.prototype.includes`. -/
def jsIncludes (s pat : String) : Bool := containsSub s.data pat.data

/-- The three markets served by the connection pool (`MarketType`). -/
inductive Market
  | spot
  | futuresUsdt
  | futuresCoin
deriving DecidableEq

/-- Lifecycle phase of the underlying `WebSocket` object (`readyState`). -/
inductive WsState
  | connectingWs
  | openWs
  | closedWs
deriving DecidableEq

/-- The module's `ConnectionState`. -/
inductive ConnState
  | connecting
  | connected
  | disconnected
  | reconnecting
deriving DecidableEq

/-- The per-market `InternalConnection` record.  The two timer-handle
fields (`heartbeatInterval`, `reconnectTimeout`) are replaced by the
explicit timer events described in the module comment. -/
structure Conn where
  ws : Option WsState
  state : ConnState
  subscriptions : List String
  handlers : List (String × List Nat)
  reconnectAttempts : Nat
deriving DecidableEq

/-- Configuration constant `MAX_RECONNECT_ATTEMPTS`. -/
def MAX_RECONNECT_ATTEMPTS : Nat := 5

/-- Configuration constant `BASE_RECONNECT_DELAY` (milliseconds). -/
def BASE_RECONNECT_DELAY : Nat := 1000

/-- Configuration constant `MAX_STREAMS_PER_MESSAGE`. -/
def MAX_STREAMS_PER_MESSAGE : Nat := 200

/-- JS `Map.get` on the handlers map. -/
def lookupKey : List (String × List Nat) → String → Option (List Nat)
  | [], _ => none
  | (k, v) :: rest, t => if k = t then some v else lookupKey rest t

/-- Overwrite the value stored at a key (JS `Map.set` on a present key). -/
def replaceVal : List (String × List Nat) → String → List Nat → List (String × List Nat)
  | [], _, _ => []
  | (k, v) :: rest, t, v' =>
    if k = t then (k, v') :: rest else (k, v) :: replaceVal rest t v'

/-- JS `Map.delete`. -/
def removeKey (l : List (String × List Nat)) (t : String) : List (String × List Nat) :=
  l.filter fun p => p.1 ≠ t

/-- JS `Set.add`: a no-op when the element is already present. -/
def addIfAbsent (l : List Nat) (h : Nat) : List Nat :=
  if h ∈ l then l else l ++ [h]

/-- A control frame sent to the upstream socket (`{ method, params, id }`). -/
structure Frame where
  method : String
  params : List String
  id : Nat
deriving DecidableEq

/-- The batching loop of `sendSubscribe`: `for (let i = 0; i < streams.length;
i += MAX_STREAMS_PER_MESSAGE)` emits `streams.slice(i, i + 200)` under
correlation id `Date.now() + i`. -/
def subBatches (now : Nat) : Nat → List String → List Frame
  | _, [] => []
  | i, s :: rest =>
    ⟨"SUBSCRIBE", (s :: rest).take MAX_STREAMS_PER_MESSAGE, now + i⟩ ::
      subBatches now (i + MAX_STREAMS_PER_MESSAGE) ((s :: rest).drop MAX_STREAMS_PER_MESSAGE)
termination_by _ l => l.length
decreasing_by simp [List.length_drop, MAX_STREAMS_PER_MESSAGE]; omega

/-- `sendSubscribe`: returns without sending unless the socket is open,
otherwise emits the batched SUBSCRIBE frames. -/
def sendSubscribeFrames (c : Conn) (now : Nat) (streams : List String) : List Frame :=
  if c.ws = some .openWs then subBatches now 0 streams else []

/-- `sendUnsubscribe`: a single UNSUBSCRIBE frame carrying every token,
sent only when the socket is open (note: no batching loop here). -/
def sendUnsubscribeFrames (c : Conn) (now : Nat) (streams : List String) : List Frame :=
  if c.ws = some .openWs then [⟨"UNSUBSCRIBE", streams, now⟩] else []

/-- `connect`: bail out when a socket exists and the state is already
`connecting`/`connected`; otherwise discard any stale socket, move to
`connecting` and allocate a fresh socket (whose async events are the
explicit steps `onOpen` / `onClose`). -/
def connect (c : Conn) : Conn :=
  if c.ws.isSome ∧ (c.state = .connecting ∨ c.state = .connected) then c
  else { c with state := .connecting, ws := some .connectingWs }

/-- The `streams.forEach` registration loop of `subscribe`: lowercase the
token, add the handler to the token's set (creating it when absent), and
collect tokens newly added to `subscriptions`. -/
def registerStreams (h : Nat) : Conn → List String → Conn × List String
  | c, [] => (c, [])
  | c, s :: rest =>
    let t := jsToLower s
    let c1 :=
      match lookupKey c.handlers t with
      | none => { c with handlers := c.handlers ++ [(t, [h])] }
      | some set => { c with handlers := replaceVal c.handlers t (addIfAbsent set h) }
    let step :=
      if c1.subscriptions.contains t then (c1, ([] : List String))
      else ({ c1 with subscriptions := c1.subscriptions ++ [t] }, [t])
    let rec' := registerStreams h step.1 rest
    (rec'.1, step.2 ++ rec'.2)

/-- The `streams.forEach` removal loop of `unsubscribe`: lowercase the
token, delete the handler from its set, and when the set becomes empty
drop the token from both maps and collect it for upstream unsubscribe. -/
def removeStreams (h : Nat) : Conn → List String → Conn × List String
  | c, [] => (c, [])
  | c, s :: rest =>
    let t := jsToLower s
    let step :=
      match lookupKey c.handlers t with
      | none => (c, ([] : List String))
      | some set =>
        let set' := set.erase h
        if set'.isEmpty then
          ({ c with handlers := removeKey c.handlers t,
                    subscriptions := c.subscriptions.erase t }, [t])
        else ({ c with handlers := replaceVal c.handlers t set' }, [])
    let rec' := removeStreams h step.1 rest
    (rec'.1, step.2 ++ rec'.2)

/-- The connection pool: one `InternalConnection` per market. -/
def Manager := Market → Conn

/-- Point update of the pool (mutation of the record fetched by
`connections.get(market)`). -/
def updateConn (mgr : Manager) (m : Market) (c : Conn) : Manager :=
  fun m' => if m' = m then c else mgr m'

/-- `WebSocketManager.subscribe`: register, then either connect (socket
absent or not open) or send a SUBSCRIBE for the newly live tokens. -/
def subscribe (mgr : Manager) (m : Market) (streams : List String) (h : Nat) (now : Nat) :
    Manager × List Frame :=
  let conn := mgr m
  let reg := registerStreams h conn streams
  let conn1 := reg.1
  let newStreams := reg.2
  if newStreams.isEmpty then (updateConn mgr m conn1, [])
  else if conn1.ws = some .openWs then
    (updateConn mgr m conn1, sendSubscribeFrames conn1 now newStreams)
  else (updateConn mgr m (connect conn1), [])

/-- `WebSocketManager.unsubscribe`: remove handlers, send an UNSUBSCRIBE
for tokens whose handler set emptied (when the socket is open).  The
2-second delayed close check is a timer event that touches no registry
state and is not modelled. -/
def unsubscribe (mgr : Manager) (m : Market) (streams : List String) (h : Nat) (now : Nat) :
    Manager × List Frame :=
  let conn := mgr m
  let rem := removeStreams h conn streams
  let conn1 := rem.1
  let toUnsub := rem.2
  let frames := if toUnsub.isEmpty then [] else sendUnsubscribeFrames conn1 now toUnsub
  (updateConn mgr m conn1, frames)

/-- The `ws.onopen` handler: reset the attempt counter, enter
`connected`, and resend a SUBSCRIBE for every live token. -/
def onOpen (c : Conn) (now : Nat) : Conn × List Frame :=
  let c1 := { c with ws := some WsState.openWs, reconnectAttempts := 0,
                     state := ConnState.connected }
  if 0 < c1.subscriptions.length then (c1, sendSubscribeFrames c1 now c1.subscriptions)
  else (c1, [])

/-- `handleDisconnect`: no subscriptions means plain `disconnected`;
below the attempt ceiling schedule a reconnect after
`BASE_RECONNECT_DELAY * 2 ^ attempts` (the returned delay); at the
ceiling give up and become `disconnected`. -/
def handleDisconnect (c : Conn) : Conn × Option Nat :=
  if c.subscriptions.isEmpty then ({ c with state := ConnState.disconnected }, none)
  else if c.reconnectAttempts < MAX_RECONNECT_ATTEMPTS then
    ({ c with state := ConnState.reconnecting },
      some (BASE_RECONNECT_DELAY * 2 ^ c.reconnectAttempts))
  else ({ c with state := ConnState.disconnected }, none)

/-- The `ws.onclose` handler: the socket has died, then `handleDisconnect`. -/
def onClose (c : Conn) : Conn × Option Nat :=
  handleDisconnect { c with ws := some WsState.closedWs }

/-- The body of the scheduled reconnect timeout: bump the attempt
counter, null the socket, and `connect`. -/
def reconnectFire (c : Conn) : Conn :=
  connect { c with reconnectAttempts := c.reconnectAttempts + 1, ws := none }

/-- One full failure cycle: the connection dies (`onClose`); if a
reconnect was scheduled its timeout fires and the new attempt is made
(which will itself die at the start of the next cycle). -/
def failRound (c : Conn) : Conn × Option Nat :=
  let r := onClose c
  match r.2 with
  | some d => (reconnectFire r.1, some d)
  | none => (r.1, none)

/-- Iterated failure cycles, collecting the scheduled delay (if any) of
each cycle together with the final connection record. -/
def failTrace : Conn → Nat → List (Option Nat) × Conn
  | c, 0 => ([], c)
  | c, n + 1 =>
    let r := failRound c
    let t := failTrace r.1 n
    (r.2 :: t.1, t.2)

/-- Inbound messages as classified by `handleMessage` after `JSON.parse`:
`unparsable` is a raw string on which `JSON.parse` throws; the remaining
constructors record which of the router's guards (taken in source
order) the parsed value satisfies.  Payloads are opaque (`Nat`). -/
inductive Inbound
  | unparsable
  | ack (id : Nat)
  | errMsg
  | enveloped (stream : String) (payload : Nat)
  | single (e : String) (s : Option String) (ki : Option String) (payload : Nat)
  | other
deriving DecidableEq

/-- Observable events of one `handleMessage` run: handler invocations
and the various log lines. -/
inductive Ev
  | invoked (h : Nat) (payload : Nat)
  | handlerError (h : Nat)
  | parseError
  | ackLog (id : Nat)
  | errLog
  | noMatchLog
deriving DecidableEq

/-- Dispatch to one handler set: each handler is invoked inside its own
`try`/`catch`, so a throwing handler adds an error log and the loop
continues. -/
def dispatchSet (thr : Nat → Nat → Bool) (payload : Nat) (hs : List Nat) : List Ev :=
  hs.flatMap fun h =>
    Ev.invoked h payload :: (if thr h payload then [Ev.handlerError h] else [])

/-- The approximate-match fallback of the combined-stream branch: scan
every registered token and dispatch on equality or a substring relation
in either direction. -/
def envFallback (thr : Nat → Nat → Bool) (c : Conn) (streamName : String) (payload : Nat) :
    List Ev :=
  let matched := c.handlers.any fun p =>
    streamName == p.1 || jsIncludes streamName p.1 || jsIncludes p.1 streamName
  let evs := c.handlers.flatMap fun p =>
    if streamName == p.1 || jsIncludes streamName p.1 || jsIncludes p.1 streamName then
      dispatchSet thr payload p.2
    else []
  if matched then evs else [Ev.noMatchLog]

/-- The combined-stream branch: exact lookup first (taken when the
handler set exists and is non-empty), else the fallback scan. -/
def envRoute (thr : Nat → Nat → Bool) (c : Conn) (stream : String) (payload : Nat) :
    List Ev :=
  let streamName := jsToLower stream
  match lookupKey c.handlers streamName with
  | some hs => if 0 < hs.length then dispatchSet thr payload hs
               else envFallback thr c streamName payload
  | none => envFallback thr c streamName payload

/-- Stream pattern synthesised from a single-stream event frame
(`data.e` / `data.s` / `data.k?.i`). -/
def eventPattern (e : String) (s : Option String) (ki : Option String) : String :=
  if e == "24hrTicker" then
    match s with
    | some sym => jsToLower sym ++ "@ticker"
    | none => "!ticker@arr"
  else if e == "kline" then
    match s with
    | some sym => jsToLower sym ++ "@kline_" ++ ki.getD "undefined"
    | none => ""
  else if e == "depthUpdate" then
    match s with
    | some sym => jsToLower sym ++ "@depth"
    | none => ""
  else if e == "trade" || e == "aggTrade" then
    match s with
    | some sym => jsToLower sym ++ "@trade"
    | none => ""
  else if e == "markPriceUpdate" then
    match s with
    | some sym => jsToLower sym ++ "@markprice"
    | none => "!markprice@arr@1s"
  else ""

/-- The single-stream branch: dispatch to every registered token that
equals the synthesised pattern or contains one of the broadcast markers;
the whole parsed object is the delivered payload. -/
def eventRoute (thr : Nat → Nat → Bool) (c : Conn) (e : String) (s : Option String)
    (ki : Option String) (payload : Nat) : List Ev :=
  let pat := eventPattern e s ki
  let hit := fun (p : String × List Nat) =>
    let nr := jsToLower p.1
    nr == pat || jsIncludes nr "!ticker@arr" || jsIncludes nr "!markprice@arr"
  let matched := c.handlers.any hit
  let evs := c.handlers.flatMap fun p =>
    if hit p then dispatchSet thr payload p.2 else []
  if matched then evs else [Ev.noMatchLog]

/-- `handleMessage`: the whole body runs inside `try`/`catch`, so a
parse failure is logged and dropped; acks and error responses are
logged; enveloped and single-stream frames are routed.  The connection
record is never written. -/
def handleMessage (thr : Nat → Nat → Bool) (c : Conn) (msg : Inbound) : Conn × List Ev :=
  match msg with
  | .unparsable => (c, [Ev.parseError])
  | .ack i => (c, [Ev.ackLog i])
  | .errMsg => (c, [Ev.errLog])
  | .enveloped stream payload => (c, envRoute thr c stream payload)
  | .single e s ki payload => (c, eventRoute thr c e s ki payload)
  | .other => (c, [])

/-- `getSubscriptions`: `Array.from` of the live token set. -/
def getSubscriptions (mgr : Manager) (m : Market) : List String :=
  (mgr m).subscriptions

/-- `getState`. -/
def getState (mgr : Manager) (m : Market) : ConnState :=
  (mgr m).state

/-- The record each market starts with in the constructor. -/
def initialConn : Conn :=
  { ws := none, state := ConnState.disconnected, subscriptions := [],
    handlers := [], reconnectAttempts := 0 }

/-- The pool built by the constructor. -/
def initialManager : Manager := fun _ => initialConn

/-- Caller-facing operations on the singleton manager. -/
inductive Op
  | sub (m : Market) (streams : List String) (h : Nat)
  | unsub (m : Market) (streams : List String) (h : Nat)

/-- Apply one operation (frames discarded; correlation ids do not
influence registry state). -/
def applyOp (mgr : Manager) : Op → Manager
  | .sub m ss h => (subscribe mgr m ss h 0).1
  | .unsub m ss h => (unsubscribe mgr m ss h 0).1

/-- Apply a finite sequence of operations. -/
def applyOps (mgr : Manager) : List Op → Manager
  | [] => mgr
  | op :: rest => applyOps (applyOp mgr op) rest

namespace streamNames

/-- `streamNames.ticker`. -/
def ticker (symbol : String) : String := jsToLower symbol ++ "@ticker"

/-- `streamNames.kline`. -/
def kline (symbol interval : String) : String :=
  jsToLower symbol ++ "@kline_" ++ interval

/-- `streamNames.depth` (default `levels = 20`; the numeric level is
interpolated by JS number-to-string conversion, i.e. `Nat.repr`). -/
def depth (symbol : String) (levels : Nat := 20) : String :=
  jsToLower symbol ++ "@depth" ++ Nat.repr levels ++ "@100ms"

/-- `streamNames.trade`. -/
def trade (symbol : String) : String := jsToLower symbol ++ "@trade"

/-- `streamNames.markPrice`. -/
def markPrice (symbol : String) : String := jsToLower symbol ++ "@markPrice"

/-- `streamNames.allMiniTickers`. -/
def allMiniTickers : String := "!miniTicker@arr"

end streamNames


/-- Well-formedness of a connection record, maintained by the operations:
the live token set is exactly the handler map's key list, every handler
set is non-empty and duplicate-free, and tokens are lowercase and
duplicate-free. -/
def WF (c : Conn) : Prop :=
  c.handlers.map Prod.fst = c.subscriptions ∧
  (∀ p ∈ c.handlers, p.2 ≠ []) ∧
  (∀ t ∈ c.subscriptions, jsToLower t = t) ∧
  c.subscriptions.Nodup ∧
  (∀ p ∈ c.handlers, p.2.Nodup)

/-- Demo record: two live tokens, one handler each, socket open. -/
def demoConn2 : Conn :=
  { ws := some WsState.openWs, state := ConnState.connected,
    subscriptions := ["t1", "t2"], handlers := [("t1", [1]), ("t2", [1])],
    reconnectAttempts := 0 }

/-- Demo record: one live token with two registered handlers. -/
def demoConn3 : Conn :=
  { ws := some WsState.openWs, state := ConnState.connected,
    subscriptions := ["t"], handlers := [("t", [1, 2])],
    reconnectAttempts := 0 }

/-- Demo record: one live broadcast token with a single handler. -/
def broadcastConn : Conn :=
  { ws := some WsState.openWs, state := ConnState.connected,
    subscriptions := ["!ticker@arr"], handlers := [("!ticker@arr", [5])],
    reconnectAttempts := 0 }

/-- Demo record family: one live broadcast token whose only handler is
`cb`, at an arbitrary reconnect count. -/
def broadcastConnOf (cb ra : Nat) : Conn :=
  { ws := some WsState.openWs, state := ConnState.connected,
    subscriptions := ["!ticker@arr"], handlers := [("!ticker@arr", [cb])],
    reconnectAttempts := ra }

theorem toNat_ofNat_valid (n : Nat) (h : n.isValidChar) : (Char.ofNat n).toNat = n := by
  rw [Char.ofNat, dif_pos h]; rfl

theorem charLower_not_upper (c : Char) :
    ¬(65 ≤ (Char.toLower c).toNat ∧ (Char.toLower c).toNat ≤ 90) := by
  simp only [Char.toLower]
  split
  · rename_i h
    rw [toNat_ofNat_valid]
    · omega
    · exact Or.inl (by omega)
  · rename_i h
    omega

theorem charLower_fix (c : Char) (h : ¬(65 ≤ c.toNat ∧ c.toNat ≤ 90)) :
    Char.toLower c = c := by
  simp only [Char.toLower]
  rw [if_neg]
  omega

theorem charLower_idem (c : Char) : Char.toLower (Char.toLower c) = Char.toLower c :=
  charLower_fix _ (charLower_not_upper c)

theorem mapLower_idem (l : List Char) :
    (l.map Char.toLower).map Char.toLower = l.map Char.toLower := by
  induction l with
  | nil => rfl
  | cons a t ih => simp [charLower_idem, ih]

theorem jsToLower_idem (s : String) : jsToLower (jsToLower s) = jsToLower s :=
  congrArg String.mk (mapLower_idem s.data)

theorem jsToLower_append (a b : String) :
    jsToLower (a ++ b) = jsToLower a ++ jsToLower b := by
  show String.mk ((a ++ b).data.map Char.toLower) = _
  rw [String.data_append, List.map_append]
  rfl

theorem mapLower_fix (l : List Char) (h : ∀ c ∈ l, Char.toLower c = c) :
    l.map Char.toLower = l := by
  induction l with
  | nil => rfl
  | cons a t ih =>
    simp only [List.map_cons]
    rw [h a (by simp), ih (fun c hc => h c (by simp [hc]))]

theorem jsToLower_fix_of_chars (s : String) (h : ∀ c ∈ s.data, Char.toLower c = c) :
    jsToLower s = s := by
  show String.mk (s.data.map Char.toLower) = s
  rw [mapLower_fix s.data h]

theorem digitChar_lower : ∀ n : Nat, Char.toLower (Nat.digitChar n) = Nat.digitChar n
  | 0 => rfl
  | 1 => rfl
  | 2 => rfl
  | 3 => rfl
  | 4 => rfl
  | 5 => rfl
  | 6 => rfl
  | 7 => rfl
  | 8 => rfl
  | 9 => rfl
  | 10 => rfl
  | 11 => rfl
  | 12 => rfl
  | 13 => rfl
  | 14 => rfl
  | 15 => rfl
  | (_n + 16) => rfl

theorem toDigitsCore_lower (b : Nat) (fuel : Nat) :
    ∀ (n : Nat) (ds : List Char), (∀ c ∈ ds, Char.toLower c = c) →
      ∀ c ∈ Nat.toDigitsCore b fuel n ds, Char.toLower c = c := by
  induction fuel with
  | zero => intro n ds hds c hc; exact hds c hc
  | succ fuel ih =>
    intro n ds hds c hc
    simp only [Nat.toDigitsCore] at hc
    split at hc
    · rcases List.mem_cons.mp hc with rfl | hmem
      · exact digitChar_lower _
      · exact hds c hmem
    · refine ih _ _ ?_ c hc
      intro c' hc'
      rcases List.mem_cons.mp hc' with rfl | hmem
      · exact digitChar_lower _
      · exact hds c' hmem

theorem natRepr_lower (n : Nat) : jsToLower (Nat.repr n) = Nat.repr n := by
  apply jsToLower_fix_of_chars
  intro c hc
  exact toDigitsCore_lower 10 (n + 1) n [] (by intro c h; cases h) c hc
theorem lookupKey_none_not_mem {l : List (String × List Nat)} {t : String}
    (h : lookupKey l t = none) : t ∉ l.map Prod.fst := by
  induction l with
  | nil => simp
  | cons p rest ih =>
    obtain ⟨k, v⟩ := p
    simp only [lookupKey] at h
    by_cases hk : k = t
    · simp [hk] at h
    · simp only [List.map_cons, List.mem_cons]
      rintro (rfl | hmem)
      · exact hk rfl
      · exact ih (by simpa [hk] using h) hmem

theorem lookupKey_some_mem_pair {l : List (String × List Nat)} {t : String} {v : List Nat}
    (h : lookupKey l t = some v) : (t, v) ∈ l := by
  induction l with
  | nil => simp [lookupKey] at h
  | cons p rest ih =>
    obtain ⟨k, w⟩ := p
    simp only [lookupKey] at h
    by_cases hk : k = t
    · simp only [hk, if_pos] at h
      subst hk
      obtain rfl : w = v := by simpa using h
      exact List.mem_cons_self _ _
    · exact List.mem_cons_of_mem _ (ih (by simpa [hk] using h))

theorem map_fst_replaceVal (l : List (String × List Nat)) (t : String) (v : List Nat) :
    (replaceVal l t v).map Prod.fst = l.map Prod.fst := by
  induction l with
  | nil => rfl
  | cons p rest ih =>
    obtain ⟨k, w⟩ := p
    simp only [replaceVal]
    by_cases hk : k = t
    · simp [hk]
    · simp [hk, ih]

theorem mem_replaceVal {l : List (String × List Nat)} {t : String} {v : List Nat}
    {p : String × List Nat} (h : p ∈ replaceVal l t v) : p ∈ l ∨ p = (t, v) := by
  induction l with
  | nil => simp [replaceVal] at h
  | cons q rest ih =>
    obtain ⟨k, w⟩ := q
    simp only [replaceVal] at h
    by_cases hk : k = t
    · simp only [hk, if_pos] at h
      rcases List.mem_cons.mp h with rfl | hmem
      · right; rfl
      · left; exact List.mem_cons_of_mem _ hmem
    · simp only [if_neg hk] at h
      rcases List.mem_cons.mp h with rfl | hmem
      · left; exact List.mem_cons_self _ _
      · rcases ih hmem with hl | he
        · left; exact List.mem_cons_of_mem _ hl
        · right; exact he

theorem lookupKey_replaceVal {l : List (String × List Nat)} {t : String} {w : List Nat}
    (v : List Nat) (h : lookupKey l t = some w) :
    lookupKey (replaceVal l t v) t = some v := by
  induction l with
  | nil => simp [lookupKey] at h
  | cons p rest ih =>
    obtain ⟨k, u⟩ := p
    simp only [lookupKey] at h
    by_cases hk : k = t
    · simp [replaceVal, hk, lookupKey]
    · simp only [replaceVal, if_neg hk, lookupKey]
      exact ih (by simpa [hk] using h)

theorem replaceVal_self {l : List (String × List Nat)} {t : String} {v : List Nat}
    (h : lookupKey l t = some v) : replaceVal l t v = l := by
  induction l with
  | nil => rfl
  | cons p rest ih =>
    obtain ⟨k, w⟩ := p
    simp only [lookupKey] at h
    by_cases hk : k = t
    · simp only [hk, if_pos] at h
      obtain rfl : w = v := by simpa using h
      simp [replaceVal, hk]
    · simp only [replaceVal, if_neg hk]
      rw [ih (by simpa [hk] using h)]

theorem lookupKey_append_none {l : List (String × List Nat)} {t : String}
    (v : List Nat) (h : lookupKey l t = none) :
    lookupKey (l ++ [(t, v)]) t = some v := by
  induction l with
  | nil => simp [lookupKey]
  | cons p rest ih =>
    obtain ⟨k, w⟩ := p
    simp only [lookupKey] at h
    by_cases hk : k = t
    · simp [hk] at h
    · simp only [List.cons_append, lookupKey, if_neg hk]
      exact ih (by simpa [hk] using h)

theorem map_fst_removeKey (l : List (String × List Nat)) (t : String) :
    (removeKey l t).map Prod.fst = (l.map Prod.fst).filter (fun x => x ≠ t) := by
  induction l with
  | nil => rfl
  | cons p rest ih =>
    obtain ⟨k, w⟩ := p
    by_cases hk : k = t
    · simp [removeKey, List.filter_cons, hk, ih] at *
      simpa [removeKey] using ih
    · simp [removeKey, List.filter_cons, hk] at *
      simpa [removeKey, hk] using ih

theorem mem_removeKey {l : List (String × List Nat)} {t : String}
    {p : String × List Nat} (h : p ∈ removeKey l t) : p ∈ l :=
  List.mem_of_mem_filter h

theorem addIfAbsent_ne_nil (l : List Nat) (h : Nat) : addIfAbsent l h ≠ [] := by
  unfold addIfAbsent
  split
  · rename_i hm
    intro he
    rw [he] at hm
    cases hm
  · simp

theorem addIfAbsent_nodup {l : List Nat} (h : Nat) (hn : l.Nodup) :
    (addIfAbsent l h).Nodup := by
  unfold addIfAbsent
  split
  · exact hn
  · rename_i hm
    simp [List.nodup_append, hn, hm]

theorem mem_addIfAbsent_self (l : List Nat) (h : Nat) : h ∈ addIfAbsent l h := by
  unfold addIfAbsent
  split
  · assumption
  · simp

theorem count_addIfAbsent {l : List Nat} (h : Nat) (hn : l.Nodup) :
    (addIfAbsent l h).count h = 1 := by
  unfold addIfAbsent
  split
  · rename_i hm
    exact List.count_eq_one_of_mem hn hm
  · rename_i hm
    rw [List.count_append]
    simp [List.count_eq_zero_of_not_mem hm]

theorem dispatchSet_count (thr : Nat → Nat → Bool) (p h : Nat) (hs : List Nat) :
    (dispatchSet thr p hs).count (Ev.invoked h p) = hs.count h := by
  induction hs with
  | nil => rfl
  | cons a rest ih =>
    simp only [dispatchSet, List.flatMap_cons] at *
    rw [List.count_append]
    rw [ih]
    by_cases hah : a = h
    · subst hah
      split
      · simp [List.count_cons]
        omega
      · simp [List.count_cons]
        omega
    · have h1 : (Ev.invoked a p) ≠ (Ev.invoked h p) := by
        intro he
        injection he with h2 h3
        exact hah h2
      split
      · simp [List.count_cons, h1, hah]
      · simp [List.count_cons, h1, hah]

theorem mem_dispatchSet (thr : Nat → Nat → Bool) (p : Nat) {h : Nat} {hs : List Nat}
    (hm : h ∈ hs) : Ev.invoked h p ∈ dispatchSet thr p hs := by
  induction hs with
  | nil => cases hm
  | cons a rest ih =>
    simp only [dispatchSet, List.flatMap_cons]
    rcases List.mem_cons.mp hm with rfl | hmem
    · exact List.mem_append_left _ (List.mem_cons_self _ _)
    · exact List.mem_append_right _ (ih hmem)

theorem mem_dispatchSet_err (thr : Nat → Nat → Bool) (p : Nat) {h : Nat} {hs : List Nat}
    (hm : h ∈ hs) (ht : thr h p = true) : Ev.handlerError h ∈ dispatchSet thr p hs := by
  induction hs with
  | nil => cases hm
  | cons a rest ih =>
    simp only [dispatchSet, List.flatMap_cons]
    rcases List.mem_cons.mp hm with rfl | hmem
    · refine List.mem_append_left _ (List.mem_cons_of_mem _ ?_)
      rw [ht]
      simp
    · exact List.mem_append_right _ (ih hmem)

theorem wf_connect {c : Conn} (hwf : WF c) : WF (connect c) := by
  unfold connect
  split
  · exact hwf
  · exact hwf

theorem wf_registerStreams (h : Nat) :
    ∀ (ss : List String) (c : Conn), WF c → WF (registerStreams h c ss).1 := by
  intro ss
  induction ss with
  | nil => intro c hwf; exact hwf
  | cons s rest ih =>
    intro c hwf
    obtain ⟨hkeys, hne, hlow, hnd, hndv⟩ := hwf
    simp only [registerStreams]
    apply ih
    cases hlk : lookupKey c.handlers (jsToLower s) with
    | none =>
      have htk := lookupKey_none_not_mem hlk
      have hts : jsToLower s ∉ c.subscriptions := by rw [← hkeys]; exact htk
      have hct : c.subscriptions.contains (jsToLower s) = false := by
        simp [List.contains, List.elem_eq_mem, hts]
      simp only [hlk, hct, Bool.false_eq_true, if_false]
      refine ⟨?_, ?_, ?_, ?_, ?_⟩
      · simp only [List.map_append, List.map_cons, List.map_nil, hkeys]
      · intro p hp
        rcases List.mem_append.mp hp with hold | hnew
        · exact hne p hold
        · simp only [List.mem_singleton] at hnew
          subst hnew
          simp
      · intro t ht
        rcases List.mem_append.mp ht with hold | hnew
        · exact hlow t hold
        · simp only [List.mem_singleton] at hnew
          subst hnew
          exact jsToLower_idem s
      · simp [List.nodup_append, hnd, hts]
      · intro p hp
        rcases List.mem_append.mp hp with hold | hnew
        · exact hndv p hold
        · simp only [List.mem_singleton] at hnew
          subst hnew
          simp
    | some set =>
      have hpair := lookupKey_some_mem_pair hlk
      have htk : jsToLower s ∈ c.handlers.map Prod.fst :=
        List.mem_map_of_mem Prod.fst hpair
      have hts : jsToLower s ∈ c.subscriptions := by rw [← hkeys]; exact htk
      have hct : c.subscriptions.contains (jsToLower s) = true := by
        simp [List.contains, List.elem_eq_mem, hts]
      simp only [hlk, hct, if_true]
      refine ⟨?_, ?_, ?_, ?_, ?_⟩
      · rw [map_fst_replaceVal, hkeys]
      · intro p hp
        rcases mem_replaceVal hp with hold | hnew
        · exact hne p hold
        · subst hnew
          exact addIfAbsent_ne_nil set h
      · exact hlow
      · exact hnd
      · intro p hp
        rcases mem_replaceVal hp with hold | hnew
        · exact hndv p hold
        · subst hnew
          exact addIfAbsent_nodup h (hndv _ hpair)

theorem wf_removeStreams (h : Nat) :
    ∀ (ss : List String) (c : Conn), WF c → WF (removeStreams h c ss).1 := by
  intro ss
  induction ss with
  | nil => intro c hwf; exact hwf
  | cons s rest ih =>
    intro c hwf
    obtain ⟨hkeys, hne, hlow, hnd, hndv⟩ := hwf
    simp only [removeStreams]
    apply ih
    cases hlk : lookupKey c.handlers (jsToLower s) with
    | none => exact ⟨hkeys, hne, hlow, hnd, hndv⟩
    | some set =>
      have hpair := lookupKey_some_mem_pair hlk
      simp only [hlk]
      split
      · dsimp only
        refine ⟨?_, ?_, ?_, ?_, ?_⟩
        · rw [map_fst_removeKey, hkeys, List.Nodup.erase_eq_filter hnd]
          refine List.filter_congr ?_
          intro x _
          simp only [bne]
          by_cases hx : x = jsToLower s <;> simp [hx]
        · intro p hp
          exact hne p (mem_removeKey hp)
        · intro t ht
          exact hlow t (List.mem_of_mem_erase ht)
        · exact hnd.erase _
        · intro p hp
          exact hndv p (mem_removeKey hp)
      · rename_i hsne
        dsimp only
        refine ⟨?_, ?_, ?_, ?_, ?_⟩
        · rw [map_fst_replaceVal, hkeys]
        · intro p hp
          rcases mem_replaceVal hp with hold | hnew
          · exact hne p hold
          · subst hnew
            show set.erase h ≠ []
            intro habs
            exact hsne (by rw [habs]; rfl)
        · exact hlow
        · exact hnd
        · intro p hp
          rcases mem_replaceVal hp with hold | hnew
          · exact hndv p hold
          · subst hnew
            exact (hndv _ hpair).erase h

theorem wf_updateConn {mgr : Manager} (hwf : ∀ m, WF (mgr m)) {c : Conn} (hc : WF c)
    (m : Market) : ∀ m', WF (updateConn mgr m c m') := by
  intro m'
  unfold updateConn
  split
  · exact hc
  · exact hwf m'

theorem wf_subscribe {mgr : Manager} (hwf : ∀ m, WF (mgr m))
    (m : Market) (ss : List String) (h now : Nat) :
    ∀ m', WF ((subscribe mgr m ss h now).1 m') := by
  intro m'
  simp only [subscribe]
  have hreg := wf_registerStreams h ss (mgr m) (hwf m)
  split
  · exact wf_updateConn hwf hreg m m'
  · split
    · exact wf_updateConn hwf hreg m m'
    · exact wf_updateConn hwf (wf_connect hreg) m m'

theorem wf_unsubscribe {mgr : Manager} (hwf : ∀ m, WF (mgr m))
    (m : Market) (ss : List String) (h now : Nat) :
    ∀ m', WF ((unsubscribe mgr m ss h now).1 m') := by
  intro m'
  simp only [unsubscribe]
  exact wf_updateConn hwf (wf_removeStreams h ss (mgr m) (hwf m)) m m'

theorem wf_initialManager : ∀ m, WF (initialManager m) := by
  intro m
  refine ⟨rfl, ?_, ?_, List.nodup_nil, ?_⟩ <;> intro p hp <;> cases hp

theorem wf_applyOps (ops : List Op) :
    ∀ (mgr : Manager), (∀ m, WF (mgr m)) → ∀ m, WF (applyOps mgr ops m) := by
  induction ops with
  | nil => intro mgr hwf m; exact hwf m
  | cons op rest ih =>
    intro mgr hwf m
    refine ih _ ?_ m
    cases op with
    | sub mm ss h => exact wf_subscribe hwf mm ss h 0
    | unsub mm ss h => exact wf_unsubscribe hwf mm ss h 0

theorem subBatches_flatten (now : Nat) :
    ∀ (n : Nat) (l : List String), l.length ≤ n → ∀ i,
      ((subBatches now i l).map Frame.params).flatten = l := by
  intro n
  induction n with
  | zero =>
    intro l hl i
    have hnil : l = [] := List.length_eq_zero.mp (Nat.le_zero.mp hl)
    subst hnil
    simp [subBatches]
  | succ n ih =>
    intro l hl i
    cases l with
    | nil => simp [subBatches]
    | cons s rest =>
      simp only [subBatches, List.map_cons, List.flatten_cons]
      rw [ih _ ?_ (i + MAX_STREAMS_PER_MESSAGE)]
      · exact List.take_append_drop _ _
      · simp only [List.length_drop, List.length_cons, MAX_STREAMS_PER_MESSAGE]
        simp only [List.length_cons] at hl
        omega

theorem subBatches_le (now : Nat) :
    ∀ (n : Nat) (l : List String), l.length ≤ n → ∀ i, ∀ f ∈ subBatches now i l,
      f.method = "SUBSCRIBE" ∧ f.params.length ≤ MAX_STREAMS_PER_MESSAGE := by
  intro n
  induction n with
  | zero =>
    intro l hl i f hf
    have hnil : l = [] := List.length_eq_zero.mp (Nat.le_zero.mp hl)
    subst hnil
    simp [subBatches] at hf
  | succ n ih =>
    intro l hl i f hf
    cases l with
    | nil => simp [subBatches] at hf
    | cons s rest =>
      simp only [subBatches] at hf
      rcases List.mem_cons.mp hf with rfl | hmem
      · refine ⟨rfl, ?_⟩
        simp only [List.length_take]
        exact Nat.min_le_left _ _
      · refine ih _ ?_ _ f hmem
        simp only [List.length_drop, List.length_cons, MAX_STREAMS_PER_MESSAGE]
        simp only [List.length_cons] at hl
        omega

theorem subBatches_id_ge (now : Nat) :
    ∀ (n : Nat) (l : List String), l.length ≤ n → ∀ i, ∀ f ∈ subBatches now i l,
      now + i ≤ f.id := by
  intro n
  induction n with
  | zero =>
    intro l hl i f hf
    have hnil : l = [] := List.length_eq_zero.mp (Nat.le_zero.mp hl)
    subst hnil
    simp [subBatches] at hf
  | succ n ih =>
    intro l hl i f hf
    cases l with
    | nil => simp [subBatches] at hf
    | cons s rest =>
      simp only [subBatches] at hf
      rcases List.mem_cons.mp hf with rfl | hmem
      · exact Nat.le_refl _
      · have := ih ((s :: rest).drop MAX_STREAMS_PER_MESSAGE) ?_ (i + MAX_STREAMS_PER_MESSAGE) f hmem
        · omega
        · simp only [List.length_drop, List.length_cons, MAX_STREAMS_PER_MESSAGE]
          simp only [List.length_cons] at hl
          omega

theorem subBatches_ids_pairwise (now : Nat) :
    ∀ (n : Nat) (l : List String), l.length ≤ n → ∀ i,
      ((subBatches now i l).map Frame.id).Pairwise (· < ·) := by
  intro n
  induction n with
  | zero =>
    intro l hl i
    have hnil : l = [] := List.length_eq_zero.mp (Nat.le_zero.mp hl)
    subst hnil
    simp [subBatches]
  | succ n ih =>
    intro l hl i
    cases l with
    | nil => simp [subBatches]
    | cons s rest =>
      have hlen : ((s :: rest).drop MAX_STREAMS_PER_MESSAGE).length ≤ n := by
        simp only [List.length_drop, List.length_cons, MAX_STREAMS_PER_MESSAGE]
        simp only [List.length_cons] at hl
        omega
      simp only [subBatches, List.map_cons, List.pairwise_cons]
      constructor
      · intro b hb
        rcases List.mem_map.mp hb with ⟨f, hf, rfl⟩
        have := subBatches_id_ge now n _ hlen (i + MAX_STREAMS_PER_MESSAGE) f hf
        simp only [MAX_STREAMS_PER_MESSAGE] at this ⊢
        omega
      · exact ih _ hlen (i + MAX_STREAMS_PER_MESSAGE)

theorem subBatches_length (now : Nat) :
    ∀ (n : Nat) (l : List String), l.length ≤ n → ∀ i,
      (subBatches now i l).length =
        (l.length + (MAX_STREAMS_PER_MESSAGE - 1)) / MAX_STREAMS_PER_MESSAGE := by
  intro n
  induction n with
  | zero =>
    intro l hl i
    have hnil : l = [] := List.length_eq_zero.mp (Nat.le_zero.mp hl)
    subst hnil
    simp [subBatches, MAX_STREAMS_PER_MESSAGE]
  | succ n ih =>
    intro l hl i
    cases l with
    | nil => simp [subBatches, MAX_STREAMS_PER_MESSAGE]
    | cons s rest =>
      simp only [subBatches, List.length_cons]
      rw [ih ((s :: rest).drop MAX_STREAMS_PER_MESSAGE) ?_ (i + MAX_STREAMS_PER_MESSAGE)]
      · simp only [List.length_drop, List.length_cons, MAX_STREAMS_PER_MESSAGE]
        omega
      · simp only [List.length_drop, List.length_cons, MAX_STREAMS_PER_MESSAGE]
        simp only [List.length_cons] at hl
        omega

/-- C7 (amended): every outbound SUBSCRIBE request is split into
`ceil(k / 200)` frames of at most `MAX_STREAMS_PER_MESSAGE` tokens whose
params concatenate to the original token list, with pairwise distinct
correlation ids; an outbound UNSUBSCRIBE request, however, is sent as a
single frame carrying all `k` tokens, whatever `k` is. -/
theorem claim_C7_batching (c : Conn) (now : Nat) (streams : List String)
    (hws : c.ws = some WsState.openWs) :
    (∀ f ∈ sendSubscribeFrames c now streams,
        f.method = "SUBSCRIBE" ∧ f.params.length ≤ MAX_STREAMS_PER_MESSAGE) ∧
    ((sendSubscribeFrames c now streams).map Frame.params).flatten = streams ∧
    (sendSubscribeFrames c now streams).length =
      (streams.length + (MAX_STREAMS_PER_MESSAGE - 1)) / MAX_STREAMS_PER_MESSAGE ∧
    ((sendSubscribeFrames c now streams).map Frame.id).Pairwise (· ≠ ·) ∧
    sendUnsubscribeFrames c now streams =
      [{ method := "UNSUBSCRIBE", params := streams, id := now }] := by
  have hsend : sendSubscribeFrames c now streams = subBatches now 0 streams := by
    simp [sendSubscribeFrames, hws]
  have husend : sendUnsubscribeFrames c now streams =
      [{ method := "UNSUBSCRIBE", params := streams, id := now }] := by
    simp [sendUnsubscribeFrames, hws]
  rw [hsend, husend]
  refine ⟨subBatches_le now streams.length streams (Nat.le_refl _) 0,
    subBatches_flatten now streams.length streams (Nat.le_refl _) 0,
    subBatches_length now streams.length streams (Nat.le_refl _) 0,
    ?_, rfl⟩
  exact (subBatches_ids_pairwise now streams.length streams (Nat.le_refl _) 0).imp
    fun hlt => Nat.ne_of_lt hlt

/-- C7 witness: a concrete open connection and a two-token request. -/
theorem claim_C7_batching_witness :
    ((sendSubscribeFrames demoConn2 7 ["a", "b"]).map Frame.params).flatten = ["a", "b"] ∧
    (sendSubscribeFrames demoConn2 7 ["a", "b"]).length =
      ((["a", "b"] : List String).length + (MAX_STREAMS_PER_MESSAGE - 1)) /
        MAX_STREAMS_PER_MESSAGE ∧
    sendUnsubscribeFrames demoConn2 7 ["a", "b"] =
      [{ method := "UNSUBSCRIBE", params := ["a", "b"], id := 7 }] :=
  ⟨(claim_C7_batching demoConn2 7 ["a", "b"] rfl).2.1,
    (claim_C7_batching demoConn2 7 ["a", "b"] rfl).2.2.1,
    (claim_C7_batching demoConn2 7 ["a", "b"] rfl).2.2.2.2⟩

set_option maxRecDepth 4000 in
/-- C7 counterexample: a 201-token UNSUBSCRIBE request is sent as one
frame whose params exceed the 200-token ceiling, so unsubscribe requests
are not split into batches of at most 200 tokens. -/
theorem claim_C7_counterexample :
    ¬ (∀ f ∈ sendUnsubscribeFrames demoConn2 0 (List.replicate 201 "t"),
        f.params.length ≤ MAX_STREAMS_PER_MESSAGE) := by
  decide

theorem jsToLower_eq_self_append (x y : String) (hx : jsToLower x = x)
    (hy : jsToLower y = y) : jsToLower (x ++ y) = x ++ y := by
  rw [jsToLower_append, hx, hy]

theorem append_ne_of_suffix_ne (a : String) {b b' : String} (hne : b ≠ b') :
    a ++ b ≠ a ++ b' := by
  intro h
  apply hne
  have hd := congrArg String.data h
  rw [String.data_append, String.data_append] at hd
  have hbb := List.append_cancel_left hd
  cases b
  cases b'
  exact congrArg String.mk (by simpa using hbb)

/-- C6 (amended): the symbol part of every codec token is lowercased,
so `ticker`, `trade` and `depth` produce entirely lowercase tokens for
every input, and `kline` does whenever its interval argument is
lowercase; but `markPrice` appends the literal suffix `"@markPrice"`
(capital `P`) and `allMiniTickers` is the literal `"!miniTicker@arr"`
(capital `T`), so those two tokens are never entirely lowercase. -/
theorem claim_C6_lowercase_amended (symbol interval : String) (levels : Nat)
    (hInt : jsToLower interval = interval) :
    jsToLower (streamNames.ticker symbol) = streamNames.ticker symbol ∧
    jsToLower (streamNames.trade symbol) = streamNames.trade symbol ∧
    jsToLower (streamNames.depth symbol levels) = streamNames.depth symbol levels ∧
    jsToLower (streamNames.kline symbol interval) = streamNames.kline symbol interval ∧
    streamNames.markPrice symbol = jsToLower symbol ++ "@markPrice" ∧
    isLowerStr (streamNames.markPrice symbol) = false ∧
    isLowerStr streamNames.allMiniTickers = false := by
  refine ⟨?_, ?_, ?_, ?_, rfl, ?_, by decide⟩
  · exact jsToLower_eq_self_append _ _ (jsToLower_idem symbol) (by decide)
  · exact jsToLower_eq_self_append _ _ (jsToLower_idem symbol) (by decide)
  · refine jsToLower_eq_self_append _ _ ?_ (by decide)
    refine jsToLower_eq_self_append _ _ ?_ (natRepr_lower levels)
    exact jsToLower_eq_self_append _ _ (jsToLower_idem symbol) (by decide)
  · refine jsToLower_eq_self_append _ _ ?_ hInt
    exact jsToLower_eq_self_append _ _ (jsToLower_idem symbol) (by decide)
  · show (jsToLower (jsToLower symbol ++ "@markPrice") == jsToLower symbol ++ "@markPrice")
      = false
    rw [jsToLower_append, jsToLower_idem]
    have hmp : jsToLower "@markPrice" = "@markprice" := by decide
    rw [hmp]
    simp only [beq_eq_false_iff_ne]
    exact append_ne_of_suffix_ne _ (by decide)

/-- C6 witness: the amended statement at symbol `"BTCusdt"`, interval
`"1m"`, depth levels 20. -/
theorem claim_C6_lowercase_amended_witness :
    jsToLower (streamNames.ticker "BTCusdt") = streamNames.ticker "BTCusdt" ∧
    jsToLower (streamNames.trade "BTCusdt") = streamNames.trade "BTCusdt" ∧
    jsToLower (streamNames.depth "BTCusdt" 20) = streamNames.depth "BTCusdt" 20 ∧
    jsToLower (streamNames.kline "BTCusdt" "1m") = streamNames.kline "BTCusdt" "1m" ∧
    streamNames.markPrice "BTCusdt" = jsToLower "BTCusdt" ++ "@markPrice" ∧
    isLowerStr (streamNames.markPrice "BTCusdt") = false ∧
    isLowerStr streamNames.allMiniTickers = false :=
  claim_C6_lowercase_amended "BTCusdt" "1m" 20 (by decide)

/-- C6 counterexample: `streamNames.markPrice "btc"` is
`"btc@markPrice"`, which `toLowerCase` does not fix, so not every codec
token is entirely lowercase. -/
theorem claim_C6_counterexample : isLowerStr (streamNames.markPrice "btc") = false := by
  decide

/-- C2 (amended): with only the broadcast token `!ticker@arr` live, the
combined-stream fallback does not match an enveloped `btcusdt@ticker`
frame (no substring relation holds in either direction) and does not
match `ethusdt@trade` either; the broadcast handler is reached by an
enveloped frame whose stream is exactly `!ticker@arr`, and by the
single-stream event branch for a `24hrTicker` event. -/
theorem claim_C2_broadcast_fallback (cb p ra : Nat) (thr : Nat → Nat → Bool) :
    (handleMessage thr (broadcastConnOf cb ra) (.enveloped "btcusdt@ticker" p)).2
        = [Ev.noMatchLog] ∧
    (handleMessage thr (broadcastConnOf cb ra) (.enveloped "ethusdt@trade" p)).2
        = [Ev.noMatchLog] ∧
    Ev.invoked cb p ∈
      (handleMessage thr (broadcastConnOf cb ra) (.enveloped "!ticker@arr" p)).2 ∧
    Ev.invoked cb p ∈
      (handleMessage thr (broadcastConnOf cb ra) (.single "24hrTicker" (some "BTCUSDT") none p)).2 := by
  refine ⟨rfl, rfl, ?_, ?_⟩ <;> exact List.mem_cons_self _ _

/-- C2 counterexample: the `!ticker@arr` handler is not invoked for an
enveloped `btcusdt@ticker` frame; the router logs a no-match instead,
contradicting the claimed fallback invocation. -/
theorem claim_C2_counterexample :
    (handleMessage (fun _ _ => false) broadcastConn (.enveloped "btcusdt@ticker" 7)).2
        = [Ev.noMatchLog] ∧
    Ev.invoked 5 7 ∉
      (handleMessage (fun _ _ => false) broadcastConn (.enveloped "btcusdt@ticker" 7)).2 := by
  decide

theorem envRoute_direct {c : Conn} {t : String} {hs : List Nat}
    (hlk : lookupKey c.handlers t = some hs) (hlow : jsToLower t = t) (hne : hs ≠ [])
    (thr : Nat → Nat → Bool) (p : Nat) :
    envRoute thr c t p = dispatchSet thr p hs := by
  simp only [envRoute, hlow, hlk]
  rw [if_pos (List.length_pos.mpr hne)]

/-- C8: the router is total: an unparsable frame only produces a
parse-error log and leaves the connection record untouched; no inbound
message ever modifies the record; and a valid enveloped frame arriving
after the unparsable one is still delivered to its registered handler. -/
theorem claim_C8_malformed_resilience (thr : Nat → Nat → Bool) (c : Conn) (t : String)
    (hs : List Nat) (h p : Nat) (hlk : lookupKey c.handlers t = some hs) (hmem : h ∈ hs)
    (hlow : jsToLower t = t) :
    handleMessage thr c Inbound.unparsable = (c, [Ev.parseError]) ∧
    (∀ msg, (handleMessage thr c msg).1 = c) ∧
    Ev.invoked h p ∈
      (handleMessage thr (handleMessage thr c Inbound.unparsable).1 (.enveloped t p)).2 := by
  refine ⟨rfl, ?_, ?_⟩
  · intro msg
    cases msg <;> rfl
  · show Ev.invoked h p ∈ envRoute thr c t p
    rw [envRoute_direct hlk hlow (by intro hnil; rw [hnil] at hmem; cases hmem) thr p]
    exact mem_dispatchSet thr p hmem

/-- C8 witness: demoConn3 with handler 1 registered for token `"t"`;
the no-modification conjunct is sampled at an error-response frame. -/
theorem claim_C8_malformed_resilience_witness :
    handleMessage (fun _ _ => false) demoConn3 Inbound.unparsable
        = (demoConn3, [Ev.parseError]) ∧
    (handleMessage (fun _ _ => false) demoConn3 Inbound.errMsg).1 = demoConn3 ∧
    Ev.invoked 1 9 ∈
      (handleMessage (fun _ _ => false)
        (handleMessage (fun _ _ => false) demoConn3 Inbound.unparsable).1
        (.enveloped "t" 9)).2 :=
  ⟨(claim_C8_malformed_resilience (fun _ _ => false) demoConn3 "t" [1, 2] 1 9 rfl
      (by decide) (by decide)).1,
    (claim_C8_malformed_resilience (fun _ _ => false) demoConn3 "t" [1, 2] 1 9 rfl
      (by decide) (by decide)).2.1 Inbound.errMsg,
    (claim_C8_malformed_resilience (fun _ _ => false) demoConn3 "t" [1, 2] 1 9 rfl
      (by decide) (by decide)).2.2⟩

/-- C9: with handlers `c1` and `c2` both registered for token `t`, a
throw by `c1` on the delivered payload is caught (dispatch returns,
logging a per-handler error), `c2` is still invoked with the same
payload, and the connection record is unchanged. -/
theorem claim_C9_callback_isolation (thr : Nat → Nat → Bool) (c : Conn) (t : String)
    (hs : List Nat) (c1 c2 p : Nat) (hlk : lookupKey c.handlers t = some hs)
    (h1 : c1 ∈ hs) (h2 : c2 ∈ hs) (_hne12 : c1 ≠ c2) (hlow : jsToLower t = t)
    (hthrow : thr c1 p = true) :
    (handleMessage thr c (.enveloped t p)).1 = c ∧
    Ev.handlerError c1 ∈ (handleMessage thr c (.enveloped t p)).2 ∧
    Ev.invoked c2 p ∈ (handleMessage thr c (.enveloped t p)).2 := by
  have hnil : hs ≠ [] := by
    intro hnil
    rw [hnil] at h1
    cases h1
  refine ⟨rfl, ?_, ?_⟩
  · show Ev.handlerError c1 ∈ envRoute thr c t p
    rw [envRoute_direct hlk hlow hnil thr p]
    exact mem_dispatchSet_err thr p h1 hthrow
  · show Ev.invoked c2 p ∈ envRoute thr c t p
    rw [envRoute_direct hlk hlow hnil thr p]
    exact mem_dispatchSet thr p h2

/-- C9 witness: demoConn3 where handler 1 throws on every payload and
handler 2 does not. -/
theorem claim_C9_callback_isolation_witness :
    (handleMessage (fun h _ => h == 1) demoConn3 (.enveloped "t" 9)).1 = demoConn3 ∧
    Ev.handlerError 1 ∈ (handleMessage (fun h _ => h == 1) demoConn3 (.enveloped "t" 9)).2 ∧
    Ev.invoked 2 9 ∈ (handleMessage (fun h _ => h == 1) demoConn3 (.enveloped "t" 9)).2 :=
  claim_C9_callback_isolation (fun h _ => h == 1) demoConn3 "t" [1, 2] 1 2 9 rfl
    (by decide) (by decide) (by decide) (by decide) rfl

theorem subBatches_nil (now i : Nat) : subBatches now i [] = [] := by
  simp [subBatches]

theorem subBatches_cons (now i : Nat) (s : String) (rest : List String) :
    subBatches now i (s :: rest) =
      { method := "SUBSCRIBE", params := (s :: rest).take MAX_STREAMS_PER_MESSAGE,
        id := now + i } ::
        subBatches now (i + MAX_STREAMS_PER_MESSAGE)
          ((s :: rest).drop MAX_STREAMS_PER_MESSAGE) := by
  simp only [subBatches]

theorem subBatches_pair (now : Nat) (t1 t2 : String) :
    subBatches now 0 [t1, t2] = [{ method := "SUBSCRIBE", params := [t1, t2], id := now }] := by
  rw [subBatches_cons]
  rw [show ((t1 :: [t2]).drop MAX_STREAMS_PER_MESSAGE) = ([] : List String) from rfl]
  rw [subBatches_nil]
  rw [show ((t1 :: [t2]).take MAX_STREAMS_PER_MESSAGE) = [t1, t2] from rfl]
  rw [Nat.add_zero]

theorem failTrace_succ (c : Conn) (n : Nat) :
    failTrace c (n + 1) = ((failRound c).2 :: (failTrace (failRound c).1 n).1,
      (failTrace (failRound c).1 n).2) := rfl

theorem failTrace_split : ∀ (m : Nat) (c : Conn) (n : Nat),
    failTrace c (m + n) = ((failTrace c m).1 ++ (failTrace (failTrace c m).2 n).1,
      (failTrace (failTrace c m).2 n).2) := by
  intro m
  induction m with
  | zero =>
    intro c n
    rw [Nat.zero_add]
    rfl
  | succ m ih =>
    intro c n
    rw [Nat.succ_add, failTrace_succ, failTrace_succ, ih (failRound c).1 n]
    dsimp only
    rw [List.cons_append]

/-- C1: when the physical connection of a market with live tokens `[t1, t2]`
dies (`onClose`), a reconnect is scheduled, and once the scheduled attempt
fires (`reconnectFire`) and its handshake succeeds (`onOpen`), the
`connected` transition itself resends a single SUBSCRIBE control frame
whose params are exactly `[t1, t2]` — no subscribe call by the caller
occurs anywhere in this event sequence. -/
theorem claim_C1_resubscribe_on_reconnect (c : Conn) (t1 t2 : String) (now : Nat)
    (hsubs : c.subscriptions = [t1, t2])
    (hra : c.reconnectAttempts < MAX_RECONNECT_ATTEMPTS)
    (hstate : c.state = ConnState.connected) :
    (onClose c).2.isSome ∧
    (onOpen (reconnectFire (onClose c).1) now).2 =
      [{ method := "SUBSCRIBE", params := [t1, t2], id := now }] ∧
    (onOpen (reconnectFire (onClose c).1) now).1.state = ConnState.connected := by
  obtain ⟨ws, st, subs, hnd, ra⟩ := c
  simp only at hsubs hra hstate
  subst hsubs hstate
  have hclose : onClose (⟨ws, ConnState.connected, [t1, t2], hnd, ra⟩ : Conn) =
      (⟨some WsState.closedWs, ConnState.reconnecting, [t1, t2], hnd, ra⟩,
        some (BASE_RECONNECT_DELAY * 2 ^ ra)) := by
    simp only [onClose, handleDisconnect, List.isEmpty_cons, Bool.false_eq_true, if_false]
    rw [if_pos hra]
  rw [hclose]
  refine ⟨rfl, ?_, rfl⟩
  show subBatches now 0 [t1, t2] = [{ method := "SUBSCRIBE", params := [t1, t2], id := now }]
  exact subBatches_pair now t1 t2

/-- C1 witness: demoConn2 holds live tokens `["t1", "t2"]` in the
connected state with a zero attempt counter. -/
theorem claim_C1_resubscribe_on_reconnect_witness :
    (onClose demoConn2).2.isSome ∧
    (onOpen (reconnectFire (onClose demoConn2).1) 99).2 =
      [{ method := "SUBSCRIBE", params := ["t1", "t2"], id := 99 }] ∧
    (onOpen (reconnectFire (onClose demoConn2).1) 99).1.state = ConnState.connected :=
  claim_C1_resubscribe_on_reconnect demoConn2 "t1" "t2" 99 rfl (by decide) rfl

/-- C3: starting connected with live tokens and a zero attempt counter,
six consecutive failure cycles schedule reconnect delays
1000·2⁰ … 1000·2⁴ before attempts 1..5, the sixth cycle schedules
nothing and leaves the state `disconnected`, and every later cycle also
schedules nothing. -/
theorem claim_C3_backoff (c : Conn)
    (hne : c.subscriptions ≠ []) (h0 : c.reconnectAttempts = 0)
    (hstate : c.state = ConnState.connected) :
    (failTrace c 6).1 = [some (BASE_RECONNECT_DELAY * 2 ^ 0),
      some (BASE_RECONNECT_DELAY * 2 ^ 1), some (BASE_RECONNECT_DELAY * 2 ^ 2),
      some (BASE_RECONNECT_DELAY * 2 ^ 3), some (BASE_RECONNECT_DELAY * 2 ^ 4), none] ∧
    (failTrace c 6).2.state = ConnState.disconnected ∧
    (∀ k, (failTrace c (k + 6)).1 =
      [some (BASE_RECONNECT_DELAY * 2 ^ 0), some (BASE_RECONNECT_DELAY * 2 ^ 1),
        some (BASE_RECONNECT_DELAY * 2 ^ 2), some (BASE_RECONNECT_DELAY * 2 ^ 3),
        some (BASE_RECONNECT_DELAY * 2 ^ 4), none] ++ List.replicate k none) := by
  obtain ⟨ws, st, subs, hnd, ra⟩ := c
  simp only at hne h0 hstate
  subst h0 hstate
  cases subs with
  | nil => exact absurd rfl hne
  | cons s rest =>
    have hround : ∀ (w : Option WsState) (stt : ConnState) (hh : List (String × List Nat))
        (n : Nat), n < MAX_RECONNECT_ATTEMPTS →
        failRound ⟨w, stt, s :: rest, hh, n⟩ =
          (⟨some WsState.connectingWs, ConnState.connecting, s :: rest, hh, n + 1⟩,
            some (BASE_RECONNECT_DELAY * 2 ^ n)) := by
      intro w stt hh n hn
      simp only [failRound, onClose, handleDisconnect, List.isEmpty_cons,
        Bool.false_eq_true, if_false]
      rw [if_pos hn]
      simp only [reconnectFire, connect, Option.isSome_none, Bool.false_eq_true,
        false_and, if_false]
    have hround5 : ∀ (w : Option WsState) (stt : ConnState) (hh : List (String × List Nat))
        (n : Nat), ¬(n < MAX_RECONNECT_ATTEMPTS) →
        failRound ⟨w, stt, s :: rest, hh, n⟩ =
          (⟨some WsState.closedWs, ConnState.disconnected, s :: rest, hh, n⟩, none) := by
      intro w stt hh n hn
      simp only [failRound, onClose, handleDisconnect, List.isEmpty_cons,
        Bool.false_eq_true, if_false]
      rw [if_neg hn]
    have h6 : failTrace (⟨ws, ConnState.connected, s :: rest, hnd, 0⟩ : Conn) 6 =
        ([some (BASE_RECONNECT_DELAY * 2 ^ 0), some (BASE_RECONNECT_DELAY * 2 ^ 1),
          some (BASE_RECONNECT_DELAY * 2 ^ 2), some (BASE_RECONNECT_DELAY * 2 ^ 3),
          some (BASE_RECONNECT_DELAY * 2 ^ 4), none],
          ⟨some WsState.closedWs, ConnState.disconnected, s :: rest, hnd, 5⟩) := by
      rw [show (6 : Nat) = 5 + 1 from rfl, failTrace_succ, hround _ _ _ 0 (by decide)]
      dsimp only
      rw [show (5 : Nat) = 4 + 1 from rfl, failTrace_succ,
        hround _ _ _ (0 + 1) (by decide)]
      dsimp only
      rw [show (4 : Nat) = 3 + 1 from rfl, failTrace_succ,
        hround _ _ _ (0 + 1 + 1) (by decide)]
      dsimp only
      rw [show (3 : Nat) = 2 + 1 from rfl, failTrace_succ,
        hround _ _ _ (0 + 1 + 1 + 1) (by decide)]
      dsimp only
      rw [show (2 : Nat) = 1 + 1 from rfl, failTrace_succ,
        hround _ _ _ (0 + 1 + 1 + 1 + 1) (by decide)]
      dsimp only
      rw [show (1 : Nat) = 0 + 1 from rfl, failTrace_succ,
        hround5 _ _ _ (0 + 1 + 1 + 1 + 1 + 1) (by decide)]
      dsimp only
      simp only [failTrace]
    have hstep : ∀ (k : Nat) (w : Option WsState) (stt : ConnState)
        (hh : List (String × List Nat)),
        (failTrace (⟨w, stt, s :: rest, hh, 5⟩ : Conn) k).1 = List.replicate k none := by
      intro k
      induction k with
      | zero => intro w stt hh; rfl
      | succ k ih =>
        intro w stt hh
        rw [failTrace_succ, hround5 _ _ _ 5 (by decide)]
        dsimp only
        rw [ih]
        rfl
    refine ⟨by rw [h6], by rw [h6], ?_⟩
    intro k
    rw [Nat.add_comm k 6, failTrace_split 6 _ k]
    dsimp only
    rw [h6]
    dsimp only
    rw [hstep k]

/-- C3 witness: demoConn2 (connected, two live tokens, zero attempts);
the every-later-cycle conjunct is sampled at two extra cycles. -/
theorem claim_C3_backoff_witness :
    (failTrace demoConn2 6).1 = [some (BASE_RECONNECT_DELAY * 2 ^ 0),
      some (BASE_RECONNECT_DELAY * 2 ^ 1), some (BASE_RECONNECT_DELAY * 2 ^ 2),
      some (BASE_RECONNECT_DELAY * 2 ^ 3), some (BASE_RECONNECT_DELAY * 2 ^ 4), none] ∧
    (failTrace demoConn2 6).2.state = ConnState.disconnected ∧
    (failTrace demoConn2 (2 + 6)).1 =
      [some (BASE_RECONNECT_DELAY * 2 ^ 0), some (BASE_RECONNECT_DELAY * 2 ^ 1),
        some (BASE_RECONNECT_DELAY * 2 ^ 2), some (BASE_RECONNECT_DELAY * 2 ^ 3),
        some (BASE_RECONNECT_DELAY * 2 ^ 4), none] ++ List.replicate 2 none :=
  ⟨(claim_C3_backoff demoConn2 (by decide) rfl rfl).1,
    (claim_C3_backoff demoConn2 (by decide) rfl rfl).2.1,
    (claim_C3_backoff demoConn2 (by decide) rfl rfl).2.2 2⟩

theorem updateConn_self (mgr : Manager) (m : Market) (c : Conn) :
    updateConn mgr m c m = c := by
  simp [updateConn]

theorem updateConn_idem (mgr : Manager) (m : Market) (c : Conn) :
    updateConn (updateConn mgr m c) m c = updateConn mgr m c := by
  funext m'
  simp only [updateConn]
  split <;> rfl

theorem connect_handlers (c : Conn) : (connect c).handlers = c.handlers := by
  unfold connect
  split <;> rfl

theorem connect_subscriptions (c : Conn) : (connect c).subscriptions = c.subscriptions := by
  unfold connect
  split <;> rfl

theorem subscribe_single_result (mgr : Manager) (m : Market) (t : String) (h now : Nat) :
    ∃ Y, (subscribe mgr m [t] h now).1 = updateConn mgr m Y ∧
      Y.handlers = (registerStreams h (mgr m) [t]).1.handlers ∧
      Y.subscriptions = (registerStreams h (mgr m) [t]).1.subscriptions := by
  simp only [subscribe]
  split
  · exact ⟨_, rfl, rfl, rfl⟩
  · split
    · exact ⟨_, rfl, rfl, rfl⟩
    · exact ⟨_, rfl, connect_handlers _, connect_subscriptions _⟩

theorem registerStreams_single_spec {c : Conn} (hwf : WF c) (t : String) (h : Nat)
    (hlow : jsToLower t = t) :
    ∃ hs, lookupKey (registerStreams h c [t]).1.handlers t = some hs ∧ h ∈ hs ∧
      hs.count h = 1 ∧ t ∈ (registerStreams h c [t]).1.subscriptions ∧
      (registerStreams h c [t]).1.subscriptions.count t = 1 := by
  obtain ⟨hkeys, hne, hlowk, hnd, hndv⟩ := hwf
  simp only [registerStreams, hlow]
  cases hlk : lookupKey c.handlers t with
  | none =>
    have hts : t ∉ c.subscriptions := by
      rw [← hkeys]
      exact lookupKey_none_not_mem hlk
    have hct : c.subscriptions.contains t = false := by
      simp [List.contains, List.elem_eq_mem, hts]
    simp only [hct, Bool.false_eq_true, if_false]
    refine ⟨[h], ?_, List.mem_singleton.mpr rfl, by simp, by simp, ?_⟩
    · exact lookupKey_append_none [h] hlk
    · rw [List.count_append, List.count_eq_zero_of_not_mem hts]
      simp
  | some set =>
    have hpair := lookupKey_some_mem_pair hlk
    have hts : t ∈ c.subscriptions := by
      rw [← hkeys]
      exact List.mem_map_of_mem Prod.fst hpair
    have hct : c.subscriptions.contains t = true := by
      simp [List.contains, List.elem_eq_mem, hts]
    simp only [hct, if_true]
    refine ⟨addIfAbsent set h, ?_, mem_addIfAbsent_self set h, ?_, hts, ?_⟩
    · exact lookupKey_replaceVal _ hlk
    · exact count_addIfAbsent h (hndv _ hpair)
    · exact List.count_eq_one_of_mem hnd hts

theorem registerStreams_noop {c : Conn} {t : String} {hs : List Nat} (h : Nat)
    (hlow : jsToLower t = t) (hlk : lookupKey c.handlers t = some hs) (hmem : h ∈ hs)
    (hts : t ∈ c.subscriptions) : registerStreams h c [t] = (c, []) := by
  simp only [registerStreams, hlow, hlk]
  have haia : addIfAbsent hs h = hs := by
    unfold addIfAbsent
    rw [if_pos hmem]
  rw [haia, replaceVal_self hlk]
  have hct : c.subscriptions.contains t = true := by
    simp [List.contains, List.elem_eq_mem, hts]
  simp only [hct, if_true]
  rfl

/-- C4: subscribing the same (market, token, callback) twice leaves the
manager in exactly the state reached after subscribing once, the token
appears exactly once in `getSubscriptions`, and one inbound enveloped
message for the token invokes the callback exactly once. -/
theorem claim_C4_idempotent_subscribe (mgr : Manager) (m : Market) (t : String)
    (h now1 now2 p : Nat) (thr : Nat → Nat → Bool)
    (hwf : WF (mgr m)) (hlow : jsToLower t = t) :
    (subscribe (subscribe mgr m [t] h now1).1 m [t] h now2).1
        = (subscribe mgr m [t] h now1).1 ∧
    (getSubscriptions (subscribe mgr m [t] h now1).1 m).count t = 1 ∧
    ((handleMessage thr ((subscribe mgr m [t] h now1).1 m) (.enveloped t p)).2).count
      (Ev.invoked h p) = 1 := by
  obtain ⟨hs, hlk1, hmem, hcnt, htsub, hscnt⟩ := registerStreams_single_spec hwf t h hlow
  obtain ⟨Y, hY, hYh, hYs⟩ := subscribe_single_result mgr m t h now1
  have hm1 : (subscribe mgr m [t] h now1).1 m = Y := by
    rw [hY]
    exact updateConn_self mgr m Y
  have hlkY : lookupKey Y.handlers t = some hs := by
    rw [hYh]
    exact hlk1
  have htsY : t ∈ Y.subscriptions := by
    rw [hYs]
    exact htsub
  refine ⟨?_, ?_, ?_⟩
  · have hnoop := registerStreams_noop h hlow hlkY hmem htsY
    set mgr1 := (subscribe mgr m [t] h now1).1 with hmgr1
    show (subscribe mgr1 m [t] h now2).1 = mgr1
    have hm1s : mgr1 m = Y := hm1
    simp only [subscribe, hm1s, hnoop, List.isEmpty_nil, if_true]
    show updateConn mgr1 m Y = mgr1
    rw [hY]
    exact updateConn_idem mgr m Y
  · show ((subscribe mgr m [t] h now1).1 m).subscriptions.count t = 1
    rw [hm1, hYs]
    exact hscnt
  · rw [hm1]
    show (envRoute thr Y t p).count (Ev.invoked h p) = 1
    rw [envRoute_direct hlkY hlow (by intro hnil; rw [hnil] at hmem; cases hmem) thr p]
    rw [dispatchSet_count]
    exact hcnt

/-- C4 witness: the initial manager, token `"btcusdt@ticker"`, handler 3. -/
theorem claim_C4_idempotent_subscribe_witness :
    (subscribe (subscribe initialManager Market.spot ["btcusdt@ticker"] 3 0).1 Market.spot
        ["btcusdt@ticker"] 3 1).1
        = (subscribe initialManager Market.spot ["btcusdt@ticker"] 3 0).1 ∧
    (getSubscriptions (subscribe initialManager Market.spot ["btcusdt@ticker"] 3 0).1
        Market.spot).count "btcusdt@ticker" = 1 ∧
    ((handleMessage (fun _ _ => false)
        ((subscribe initialManager Market.spot ["btcusdt@ticker"] 3 0).1 Market.spot)
        (.enveloped "btcusdt@ticker" 9)).2).count (Ev.invoked 3 9) = 1 :=
  claim_C4_idempotent_subscribe initialManager Market.spot "btcusdt@ticker" 3 0 1 9
    (fun _ _ => false) (wf_initialManager Market.spot) (by decide)

/-- C10: after any finite sequence of subscribe / unsubscribe calls on
the freshly constructed pool, each market's live token list is exactly
the key list of its handlers map, every such token is lowercase, and
every handler set held in the map is non-empty. -/
theorem claim_C10_registry_invariant (ops : List Op) (m : Market) :
    (applyOps initialManager ops m).handlers.map Prod.fst
        = (applyOps initialManager ops m).subscriptions ∧
    (∀ t ∈ (applyOps initialManager ops m).subscriptions, jsToLower t = t) ∧
    (∀ p ∈ (applyOps initialManager ops m).handlers, p.2 ≠ []) := by
  obtain ⟨h1, h2, h3, _h4, _h5⟩ := wf_applyOps ops initialManager wf_initialManager m
  exact ⟨h1, h3, h2⟩

/-- C5: with two distinct callbacks A and B registered for token T,
unsubscribing A sends no UNSUBSCRIBE frame and keeps T live, a
subsequent inbound message for T still invokes B, and only after
unsubscribing B as well is T removed from `getSubscriptions` and a
single UNSUBSCRIBE frame for T sent upstream. -/
theorem claim_C5_refcount (mgr : Manager) (m : Market) (T : String) (A B : Nat)
    (ra now1 now2 p : Nat) (thr : Nat → Nat → Bool) (_hAB : A ≠ B)
    (hlow : jsToLower T = T)
    (hc : mgr m = ⟨some WsState.openWs, ConnState.connected, [T], [(T, [A, B])], ra⟩) :
    (unsubscribe mgr m [T] A now1).2 = [] ∧
    getSubscriptions (unsubscribe mgr m [T] A now1).1 m = [T] ∧
    Ev.invoked B p ∈
      (handleMessage thr ((unsubscribe mgr m [T] A now1).1 m) (.enveloped T p)).2 ∧
    getSubscriptions
      (unsubscribe (unsubscribe mgr m [T] A now1).1 m [T] B now2).1 m = [] ∧
    (unsubscribe (unsubscribe mgr m [T] A now1).1 m [T] B now2).2 =
      [{ method := "UNSUBSCRIBE", params := [T], id := now2 }] := by
  have hrm1 : removeStreams A (mgr m) [T] =
      ((⟨some WsState.openWs, ConnState.connected, [T], [(T, [B])], ra⟩ : Conn), []) := by
    rw [hc]
    simp [removeStreams, lookupKey, replaceVal, hlow, List.erase_cons_head]
  have hu1 : unsubscribe mgr m [T] A now1 =
      (updateConn mgr m (⟨some WsState.openWs, ConnState.connected, [T], [(T, [B])], ra⟩ :
        Conn), []) := by
    simp only [unsubscribe, hrm1]
    rfl
  have hm1 : (unsubscribe mgr m [T] A now1).1 m =
      (⟨some WsState.openWs, ConnState.connected, [T], [(T, [B])], ra⟩ : Conn) := by
    rw [hu1]
    exact updateConn_self _ _ _
  have hrm2 : removeStreams B
      ((⟨some WsState.openWs, ConnState.connected, [T], [(T, [B])], ra⟩ : Conn)) [T] =
      ((⟨some WsState.openWs, ConnState.connected, [], [], ra⟩ : Conn), [T]) := by
    simp [removeStreams, lookupKey, removeKey, hlow, List.erase_cons_head]
  have hu2 : unsubscribe (unsubscribe mgr m [T] A now1).1 m [T] B now2 =
      (updateConn (unsubscribe mgr m [T] A now1).1 m
        (⟨some WsState.openWs, ConnState.connected, [], [], ra⟩ : Conn),
        [{ method := "UNSUBSCRIBE", params := [T], id := now2 }]) := by
    set mgr1 := (unsubscribe mgr m [T] A now1).1 with hmgr1
    simp only [unsubscribe, hm1, hrm2]
    rfl
  refine ⟨?_, ?_, ?_, ?_, ?_⟩
  · rw [hu1]
  · show ((unsubscribe mgr m [T] A now1).1 m).subscriptions = [T]
    rw [hm1]
  · rw [hm1]
    show Ev.invoked B p ∈ envRoute thr _ T p
    have hlkB : lookupKey
        (⟨some WsState.openWs, ConnState.connected, [T], [(T, [B])], ra⟩ : Conn).handlers T
        = some [B] := by
      simp [lookupKey]
    rw [envRoute_direct hlkB hlow (by simp) thr p]
    exact List.mem_cons_self _ _
  · show ((unsubscribe (unsubscribe mgr m [T] A now1).1 m [T] B now2).1 m).subscriptions = []
    rw [hu2]
    dsimp only
    rw [updateConn_self]
  · rw [hu2]

/-- C5 witness: demoConn3 installed for the spot market, with callbacks
1 and 2 both registered for token `"t"`. -/
theorem claim_C5_refcount_witness :
    (unsubscribe (updateConn initialManager Market.spot demoConn3) Market.spot ["t"] 1 50).2
        = [] ∧
    getSubscriptions
      (unsubscribe (updateConn initialManager Market.spot demoConn3) Market.spot
        ["t"] 1 50).1 Market.spot = ["t"] ∧
    Ev.invoked 2 9 ∈
      (handleMessage (fun _ _ => false)
        ((unsubscribe (updateConn initialManager Market.spot demoConn3) Market.spot
          ["t"] 1 50).1 Market.spot) (.enveloped "t" 9)).2 ∧
    getSubscriptions
      (unsubscribe
        (unsubscribe (updateConn initialManager Market.spot demoConn3) Market.spot
          ["t"] 1 50).1 Market.spot ["t"] 2 51).1 Market.spot = [] ∧
    (unsubscribe
      (unsubscribe (updateConn initialManager Market.spot demoConn3) Market.spot
        ["t"] 1 50).1 Market.spot ["t"] 2 51).2 =
      [{ method := "UNSUBSCRIBE", params := ["t"], id := 51 }] :=
  claim_C5_refcount (updateConn initialManager Market.spot demoConn3) Market.spot "t" 1 2
    0 50 51 9 (fun _ _ => false) (by decide) (by decide) rfl

end WsSpec
